import Mathlib

/-!
Verification development for the directory-mirroring engine in
`get_data.py` of the 3DRadView repository.

The Python source is shallowly embedded: pure helpers become Lean
functions, the async orchestration becomes explicit state passing over a
filesystem value together with an environment of network/filesystem
oracles, and the two `asyncio.Semaphore` gates become a small trace
semantics of acquire/release events.
-/

namespace RadView

/-! ## Filename metadata extraction

The source compiles `HD5_FILENAME_REGEX = re.compile(r'_(\d+)-(\d{14})-.*?([a-zA-Z]{3})-hd5$')`
and applies it with `re.search`.  We embed this specific pattern as an
operational matcher over `List Char` with Python `re` semantics:

* `re.search` tries start positions left to right;
* `\d+` is greedy, but since the next pattern element is the literal `-`
  and a shorter digit run always leaves a digit as the next character,
  the greedy run is exactly the maximal digit run (no backtracking can
  ever succeed where maximal munch fails);
* `\d{14}` and `[a-zA-Z]{3}` are fixed-width;
* `.*?` is lazy (shortest first) and `.` does not match a newline
  (no `re.DOTALL`);
* `$` matches at the end of the string or just before a newline that is
  the last character of the string (Python `re` semantics without
  `re.MULTILINE`);
* `\d` is modelled as the ASCII digits and `[a-zA-Z]` as the ASCII
  letters (the inputs of interest are ASCII).
-/

def isDigitChar (c : Char) : Bool :=
  ('0' ≤ c) && (c ≤ '9')

def isAlphaChar (c : Char) : Bool :=
  (('a' ≤ c) && (c ≤ 'z')) || (('A' ≤ c) && (c ≤ 'Z'))

/-- Python `$` (no MULTILINE): succeeds on the empty remainder or on a
remainder that is exactly one final newline character. -/
def dollarOk : List Char → Bool
  | [] => true
  | [c] => c = '\n'
  | _ :: _ :: _ => false

/-- Value of `int(m.group(1))` on a digit run. -/
def digitsToNat (l : List Char) : Nat :=
  l.foldl (fun n c => 10 * n + (c.toNat - 48)) 0

structure ExtractedMetadata where
  RadID : Nat
  timestamp : String
  site : String
deriving DecidableEq, Repr

/-- Attempt to match `([a-zA-Z]{3})-hd5$` at the current position,
returning the site characters on success. -/
def siteHere : List Char → Option (List Char)
  | a :: b :: c :: '-' :: 'h' :: 'd' :: '5' :: rest =>
    if isAlphaChar a && isAlphaChar b && isAlphaChar c && dollarOk rest then
      some [a, b, c]
    else
      none
  | _ => none

/-- The `.*?([a-zA-Z]{3})-hd5$` tail of the pattern: lazy scan — try the
site match at the current position first, otherwise consume one
non-newline character and retry. -/
def matchTail : List Char → Option (List Char)
  | [] => none
  | c0 :: rest0 =>
    match siteHere (c0 :: rest0) with
    | some site => some site
    | none => if c0 = '\n' then none else matchTail rest0

/-- Match the whole pattern `_(\d+)-(\d{14})-.*?([a-zA-Z]{3})-hd5$` at a
fixed start position. -/
def matchAt : List Char → Option ExtractedMetadata
  | '_' :: s1 =>
    let rad := s1.takeWhile isDigitChar
    if rad.isEmpty then none
    else
      match s1.dropWhile isDigitChar with
      | '-' :: s2 =>
        let ts := s2.take 14
        if (ts.length = 14 && ts.all isDigitChar : Bool) then
          match s2.drop 14 with
          | '-' :: s3 =>
            (matchTail s3).map fun site =>
              ⟨digitsToNat rad, String.mk ts, String.mk site⟩
          | _ => none
        else none
      | _ => none
  | _ => none

/-- `re.search`: try each start position, leftmost first. -/
def searchHd5 : List Char → Option ExtractedMetadata
  | [] => none
  | c :: rest =>
    match matchAt (c :: rest) with
    | some m => some m
    | none => searchHd5 rest

/-- `extract_info_from_filename` from `get_data.py` (lines 18-26). -/
def extract_info_from_filename (filename : String) : Option ExtractedMetadata :=
  searchHd5 filename.toList

example :
    extract_info_from_filename "_10132-20250529110000-deboo-hd5" =
      some ⟨10132, "20250529110000", "boo"⟩ := by decide

example : extract_info_from_filename "radar_photo.png" = none := by decide

example :
    extract_info_from_filename "_1-20250529110000-xabc-hd5\n" =
      some ⟨1, "20250529110000", "abc"⟩ := by decide

/-- Python `str.endswith`, modelled over the character lists of the two
strings (kernel-computable, unlike `String.endsWith`). -/
def strEndsWith (s t : String) : Bool :=
  t.toList.isSuffixOf s.toList

example : strEndsWith "_1-20250529110000-xabc-hd5\n" "-hd5" = false := by decide

example : strEndsWith "_1-20250529110000-xabc-hd5" "-hd5" = true := by decide

/-! ## Filesystem, environment and remote-tree model

Paths relative to `TARGET_DIR` are lists of path components (what
`os.path.relpath(local_path, TARGET_DIR)` denotes).  The local mirror is
a finite map from such paths to file contents, represented as an
association list.  The environment bundles the nondeterministic outside
world: whether the listing fetch of a remote directory raises, the
outcome of each download attempt for a path, and whether `os.remove`
succeeds on a path.  A fixed environment makes every run deterministic,
which models two sync runs against an unchanged remote and an unchanged
network/filesystem behaviour.
-/

abbrev Path : Type := List String

abbrev FS : Type := List (Path × List Nat)

def fsLookup : FS → Path → Option (List Nat)
  | [], _ => none
  | e :: rest, p => if e.1 = p then some e.2 else fsLookup rest p

/-- Overwrite (mode `'wb'` truncates) or create the file at `p`. -/
def fsSet : FS → Path → List Nat → FS
  | [], p, c => [(p, c)]
  | e :: rest, p, c => if e.1 = p then (p, c) :: rest else e :: fsSet rest p c

/-- Outcome of one `session.get`+stream attempt inside `download_file`:
the GET itself raises or returns a non-200 status before the local file
is opened (`connectFail`), the stream fails after the local file was
opened and partially written (`streamFail`), or the full body is
written (`success`). -/
inductive AttemptOutcome where
  | connectFail
  | streamFail (part : List Nat)
  | success (content : List Nat)
deriving DecidableEq, Repr

def AttemptOutcome.isSuccess : AttemptOutcome → Bool
  | .success _ => true
  | _ => false

structure Env where
  /-- Does `session.get` + `resp.text()` + parsing succeed for the
  directory at this remote path (relative to `HOST_URL`)?  `False`
  models any exception caught by `fetch_directory_listing`. -/
  fetchOk : Path → Bool
  /-- Outcome of download attempt number `i` (0-based) for the file
  whose local relative path is given. -/
  attempt : Path → Nat → AttemptOutcome
  /-- Does `os.remove` succeed on this relative path? -/
  deleteOk : Path → Bool

/-- A remote directory: the `<a>` anchors of its HTML index page (each
with an optional `href`), and the subtrees reachable through the
directory links, keyed by the raw link text. -/
inductive RemoteNode where
  | node (anchors : List (Option String)) (children : List (String × RemoteNode))

/-- `fetch_directory_listing` (lines 28-37): on a successful fetch,
keep exactly the anchor hrefs that are present, non-empty (Python
truthiness of `a.get('href')`) and not the parent link `../`; on any
exception return the empty list and log the failure.  The second
component records whether the failure message was printed. -/
def fetch_directory_listing (res : Except Unit (List (Option String))) :
    List String × Bool :=
  match res with
  | .ok anchors =>
    (anchors.filterMap fun h? =>
      match h? with
      | some h => if h ≠ "" && h ≠ "../" then some h else none
      | none => none, false)
  | .error _ => ([], true)

/-- `os.path.basename`: the part of the link after the last slash. -/
def basename (link : String) : String :=
  String.mk ((link.toList.reverse.takeWhile (fun c => c ≠ '/')).reverse)

def splitPathAux : List Char → List Char → List String
  | acc, [] => if acc.isEmpty then [] else [String.mk acc.reverse]
  | acc, c :: rest =>
    if c = '/' then
      if acc.isEmpty then splitPathAux [] rest
      else String.mk acc.reverse :: splitPathAux [] rest
    else splitPathAux (c :: acc) rest

/-- Path components contributed by a (directory) link under
`os.path.join` followed by `os.path.relpath` normalisation: the
non-empty segments between slashes. -/
def splitPath (link : String) : List String :=
  splitPathAux [] link.toList

/-- Messages printed by `download_file`. -/
inductive DlMsg where
  | downloaded
  | retrying
  | failedFinal
deriving DecidableEq, Repr

/-- The retry loop of `download_file` (lines 41-60): `i` is the current
0-based attempt index and the `Nat` argument the number of attempts
still available.  Returns the `True`/`False` result, the filesystem and
the printed messages. -/
def downloadAttempts (env : Env) (p : Path) (i : Nat) :
    Nat → FS → Bool × FS × List DlMsg
  | 0, fs => (false, fs, [])
  | k + 1, fs =>
    match env.attempt p i with
    | .success c => (true, fsSet fs p c, [DlMsg.downloaded])
    | .connectFail =>
      if k = 0 then (false, fs, [DlMsg.failedFinal])
      else
        let r := downloadAttempts env p (i + 1) k fs
        (r.1, r.2.1, DlMsg.retrying :: r.2.2)
    | .streamFail c =>
      let fs1 := fsSet fs p c
      if k = 0 then (false, fs1, [DlMsg.failedFinal])
      else
        let r := downloadAttempts env p (i + 1) k fs1
        (r.1, r.2.1, DlMsg.retrying :: r.2.2)

/-- `download_file` (lines 39-60) with its default `retries=3`. -/
def download_file (env : Env) (p : Path) (fs : FS) : Bool × FS × List DlMsg :=
  downloadAttempts env p 0 3 fs

/-- The per-file `download_task` closures of `sync_directory`
(lines 67-90), applied to the pattern-filtered `hd5_files` list in
order: each records its relative path in the found set first, and only
downloads when no file exists at the local path.  Returns the found
paths, the paths for which a download was submitted, and the resulting
filesystem. -/
structure SyncRes where
  found : List Path
  attempted : List Path
  fs : FS
deriving Repr

def download_tasks (env : Env) (lrel : Path) : List String → FS → SyncRes
  | [], fs => ⟨[], [], fs⟩
  | link :: rest, fs =>
    let fn := basename link
    match extract_info_from_filename fn with
    | none => download_tasks env lrel rest fs
    | some _ =>
      let rel := lrel ++ [fn]
      if (fsLookup fs rel).isSome then
        let r := download_tasks env lrel rest fs
        ⟨rel :: r.found, r.attempted, r.fs⟩
      else
        let d := download_file env rel fs
        let r := download_tasks env lrel rest d.2.1
        ⟨rel :: r.found, rel :: r.attempted, r.fs⟩

def lookupChild : List (String × RemoteNode) → String → Option RemoteNode
  | [], _ => none
  | e :: rest, d => if e.1 = d then some e.2 else lookupChild rest d

/-! `sync_directory` (lines 62-103) together with its `folder_task`
loop, embedded with a fuel argument bounding the recursion depth (every
theorem below quantifies over the fuel, and concrete runs use a fuel
larger than the depth of the concrete tree, so the truncation at fuel 0
is never reached).  The cumulative effect of one run is
interleaving-independent because every task owns a distinct local path,
so the tasks are evaluated in listing order.

The recursion is structural on the fuel; the loop over the directory
links of one listing is `folder_tasks`, parameterised by the
one-level-deeper sync function. -/

def folder_tasks (syncf : RemoteNode → Path → Path → FS → SyncRes)
    (children : List (String × RemoteNode)) :
    List String → Path → Path → FS → SyncRes
  | [], _, _, fs => ⟨[], [], fs⟩
  | d :: rest, rpath, lrel, fs =>
    let r1 :=
      match lookupChild children d with
      | some c => syncf c (rpath ++ splitPath d) (lrel ++ splitPath d) fs
      | none => ⟨[], [], fs⟩
    let r2 := folder_tasks syncf children rest rpath lrel r1.fs
    ⟨r1.found ++ r2.found, r1.attempted ++ r2.attempted, r2.fs⟩

def sync_directory (env : Env) :
    Nat → RemoteNode → Path → Path → FS → SyncRes
  | 0, _, _, _, fs => ⟨[], [], fs⟩
  | fuel + 1, RemoteNode.node anchors children, rpath, lrel, fs =>
    let links :=
      (fetch_directory_listing
        (if env.fetchOk rpath then Except.ok anchors else Except.error ())).1
    let dirLinks := links.filter (fun l => strEndsWith l "/")
    let fileLinks := links.filter (fun l => !(strEndsWith l "/"))
    let rf := download_tasks env lrel fileLinks fs
    let rd :=
      folder_tasks (fun c rp lr fs1 => sync_directory env fuel c rp lr fs1)
        children dirLinks rpath lrel rf.fs
    ⟨rf.found ++ rd.found, rf.attempted ++ rd.attempted, rd.fs⟩

/-- `clean_local_files` (lines 114-123): walk the current local files;
attempt to delete each one whose relative path is not in the found set;
a failed deletion is logged and the file kept.  Returns the filesystem
and the logged deletion failures. -/
def clean_local_files (env : Env) (remote_files : List Path) :
    FS → FS × List Path
  | [] => ([], [])
  | e :: rest =>
    let r := clean_local_files env remote_files rest
    if e.1 ∈ remote_files then (e :: r.1, r.2)
    else if env.deleteOk e.1 then (r.1, r.2)
    else (e :: r.1, e.1 :: r.2)

structure IndexEntry where
  path : Path
  RadID : Nat
  timestamp : String
  site : String
deriving DecidableEq, Repr

def lastComponent (p : Path) : String :=
  (p.getLast?).getD ""

/-- `build_full_index_from_local` (lines 125-135): include a local file
iff its name ends with `-hd5` and the metadata extraction succeeds. -/
def build_full_index_from_local (fs : FS) : List IndexEntry :=
  fs.filterMap fun e =>
    let fn := lastComponent e.1
    if strEndsWith fn "-hd5" then
      match extract_info_from_filename fn with
      | some m => some ⟨e.1, m.RadID, m.timestamp, m.site⟩
      | none => none
    else none

/-- One whole run of `start_sync` (lines 138-147): sync from the root,
reconcile, rebuild the index from disk and overwrite the index file.
`prevIndex` is the content of the index file before the run; it is
never read, modelling the `'w'`-mode overwrite.  `completed` records
that the final success message was printed (the code reaches it
unconditionally; the unmodelled exception of the index-file write is
the one remaining fatal case of the source). -/
structure RunRes where
  found : List Path
  attempted : List Path
  deleteFailures : List Path
  fsFinal : FS
  index : List IndexEntry
  completed : Bool
deriving DecidableEq, Repr

def start_sync (env : Env) (fuel : Nat) (root : RemoteNode) (fs0 : FS)
    (_prevIndex : List IndexEntry) : RunRes :=
  let r := sync_directory env fuel root [] [] fs0
  let c := clean_local_files env r.found r.fs
  let idx := build_full_index_from_local c.1
  ⟨r.found, r.attempted, c.2, c.1, idx, true⟩

/-! ## The observed pattern-matching files of a tree

`observedHd5` recomputes, from the fetch oracle and the remote tree
alone, the relative paths of the file links whose basename matches the
hd5 pattern, in the order `sync_directory` records them.  It mentions
neither the filesystem nor the download oracle, so the theorem
`sync_directory_found_eq` below both characterises the found set
(pattern filtering happens when `hd5_files` is built, lines 67-72) and
shows it independent of download outcomes and of the local disk. -/

def observedFiles (lrel : Path) : List String → List Path
  | [] => []
  | link :: rest =>
    match extract_info_from_filename (basename link) with
    | none => observedFiles lrel rest
    | some _ => (lrel ++ [basename link]) :: observedFiles lrel rest

def observedDirs (obsf : RemoteNode → Path → Path → List Path)
    (children : List (String × RemoteNode)) :
    List String → Path → Path → List Path
  | [], _, _ => []
  | d :: rest, rpath, lrel =>
    (match lookupChild children d with
      | some c => obsf c (rpath ++ splitPath d) (lrel ++ splitPath d)
      | none => []) ++
      observedDirs obsf children rest rpath lrel

def observedHd5 (fok : Path → Bool) :
    Nat → RemoteNode → Path → Path → List Path
  | 0, _, _, _ => []
  | fuel + 1, RemoteNode.node anchors children, rpath, lrel =>
    let links :=
      (fetch_directory_listing
        (if fok rpath then Except.ok anchors else Except.error ())).1
    let dirLinks := links.filter (fun l => strEndsWith l "/")
    let fileLinks := links.filter (fun l => !(strEndsWith l "/"))
    observedFiles lrel fileLinks ++
      observedDirs (fun c rp lr => observedHd5 fok fuel c rp lr)
        children dirLinks rpath lrel

/-! ## The two concurrency gates

Line 75 creates `semaphore = asyncio.Semaphore(concurrency)` and line
93 `folder_semaphore = asyncio.Semaphore(folder_conc)` inside the body
of `sync_directory`, so every recursive call — i.e. every directory of
the tree — owns its own pair of gates.  A gate instance is therefore
identified by the directory that created it plus its kind, and the
capacities are the values `start_sync` passes at line 142.  We model
executions at the granularity of gate events: a task acquires the gate
of its own directory before a download (line 83) or a recursive
traversal (line 97) and releases it afterwards (`async with`).  A trace
of such events is valid when every acquire happens while its gate has a
free permit and every release matches an earlier acquire; the valid
traces are exactly the schedules the semaphores admit. -/

inductive GateKind where
  | download
  | folder
deriving DecidableEq, Repr

structure GateId where
  dir : Path
  kind : GateKind
deriving DecidableEq, Repr

/-- Gate capacities: the `concurrency=12, folder_conc=17` arguments of
`sync_directory`, as passed by `start_sync` (line 142). -/
def gateCap : GateId → Nat
  | ⟨_, GateKind.download⟩ => 12
  | ⟨_, GateKind.folder⟩ => 17

inductive GateEv where
  | acq (g : GateId)
  | rel (g : GateId)
deriving DecidableEq, Repr

/-- Number of permits of gate `g` held after the events of `tr`. -/
def heldAfter (tr : List GateEv) (g : GateId) : Nat :=
  tr.foldl
    (fun n e =>
      match e with
      | GateEv.acq g1 => if g1 = g then n + 1 else n
      | GateEv.rel g1 => if g1 = g then n - 1 else n)
    0

/-- Number of operations of kind `k` in flight after the events of
`tr`, summed over every gate instance of that kind. -/
def inFlight (tr : List GateEv) (k : GateKind) : Nat :=
  tr.foldl
    (fun n e =>
      match e with
      | GateEv.acq g1 => if g1.kind = k then n + 1 else n
      | GateEv.rel g1 => if g1.kind = k then n - 1 else n)
    0

/-- `validFrom done todo`: the events of `todo` are admissible after
those of `done` under the semaphore semantics. -/
def validFrom (done : List GateEv) : List GateEv → Bool
  | [] => true
  | GateEv.acq g :: rest =>
    decide (heldAfter done g < gateCap g) && validFrom (done ++ [GateEv.acq g]) rest
  | GateEv.rel g :: rest =>
    decide (0 < heldAfter done g) && validFrom (done ++ [GateEv.rel g]) rest

def ValidTrace (tr : List GateEv) : Bool :=
  validFrom [] tr

example :
    ValidTrace
      (List.replicate 12 (GateEv.acq ⟨["a"], GateKind.download⟩) ++
        [GateEv.acq ⟨["b"], GateKind.download⟩]) = true := by decide

example :
    inFlight
      (List.replicate 12 (GateEv.acq ⟨["a"], GateKind.download⟩) ++
        [GateEv.acq ⟨["b"], GateKind.download⟩])
      GateKind.download = 13 := by decide

example :
    ValidTrace (List.replicate 13 (GateEv.acq ⟨["a"], GateKind.download⟩)) = false := by
  decide

/-! ## Concrete fixtures used by counterexamples and witnesses -/

/-- A benign environment: every listing fetch succeeds, every download
attempt succeeds with body `[7]`, every deletion succeeds. -/
def envOk : Env :=
  ⟨fun _ => true, fun _ _ => AttemptOutcome.success [7], fun _ => true⟩

/-- A remote tree with one non-matching file, one matching file, a
subdirectory holding a matching file, a parent link and an empty href. -/
def treeTwo : RemoteNode :=
  RemoteNode.node
    [some "radar_photo.png", some "_5-20250529110000-xdeb-hd5", some "sub/",
      some "../", some "", none]
    [("sub/", RemoteNode.node [some "_6-20250529110000-xfoo-hd5"] [])]

/-- The fixed pattern of the specification, stated declaratively: an
underscore, digits, a hyphen, exactly 14 digits, a hyphen, free text, a
hyphen-free 3-letter site code, and the literal suffix `-hd5`.  The
`tail` disjunct carries the boundary behaviour of the compiled
pattern's `$`, which also accepts a single final newline after the
suffix (the spec flags the exact boundary behaviour as an open
question). -/
def SpecHd5Decomp (fn : String) : Prop :=
  ∃ pre rad ts mid site tail : List Char,
    fn.toList = pre ++ '_' :: (rad ++ '-' :: (ts ++ '-' ::
        (mid ++ site ++ '-' :: 'h' :: 'd' :: '5' :: tail))) ∧
      rad ≠ [] ∧ rad.all isDigitChar = true ∧
      ts.length = 14 ∧ ts.all isDigitChar = true ∧
      site.length = 3 ∧ site.all isAlphaChar = true ∧
      (tail = [] ∨ tail = ['\n'])

/-- A deletion oracle that fails exactly on the path `bad`. -/
def envDel : Env :=
  ⟨fun _ => true, fun _ _ => AttemptOutcome.success [7],
    fun p => !(p = ["bad"] : Bool)⟩

/-- An environment in which every listing fetch raises. -/
def envRootFail : Env :=
  ⟨fun _ => false, fun _ _ => AttemptOutcome.connectFail, fun _ => true⟩

/-- An environment whose downloads always fail mid-stream after writing
a partial body. -/
def envStreamFail : Env :=
  ⟨fun _ => true, fun _ _ => AttemptOutcome.streamFail [9], fun _ => true⟩

/-- An environment whose listing fetches succeed but whose download
attempts always raise before the destination file is opened. -/
def envConnFail : Env :=
  ⟨fun _ => true, fun _ _ => AttemptOutcome.connectFail, fun _ => true⟩

/-- A reliable environment: every download attempt succeeds. -/
def Reliable (env : Env) : Prop :=
  ∀ p i, (env.attempt p i).isSuccess = true

/-- A schedule with 12 downloads in flight in directory `a` and one
more in directory `b`. -/
def trace13 : List GateEv :=
  List.replicate 12 (GateEv.acq ⟨["a"], GateKind.download⟩) ++
    [GateEv.acq ⟨["b"], GateKind.download⟩]


example :
    (sync_directory envOk 2 treeTwo [] [] []).found =
      [["_5-20250529110000-xdeb-hd5"], ["sub", "_6-20250529110000-xfoo-hd5"]] := by
  decide

example :
    (sync_directory envOk 2 treeTwo [] [] []).attempted =
      [["_5-20250529110000-xdeb-hd5"], ["sub", "_6-20250529110000-xfoo-hd5"]] := by
  decide

example :
    (sync_directory envOk 2 treeTwo [] [] []).fs =
      [(["_5-20250529110000-xdeb-hd5"], [7]),
        (["sub", "_6-20250529110000-xfoo-hd5"], [7])] := by
  decide

example :
    (start_sync envOk 2 treeTwo [(["stale-file"], [3])] []).fsFinal =
      [(["_5-20250529110000-xdeb-hd5"], [7]),
        (["sub", "_6-20250529110000-xfoo-hd5"], [7])] := by
  decide

example :
    (start_sync envOk 2 treeTwo [] []).index =
      [⟨["_5-20250529110000-xdeb-hd5"], 5, "20250529110000", "deb"⟩,
        ⟨["sub", "_6-20250529110000-xfoo-hd5"], 6, "20250529110000", "foo"⟩] := by
  decide

/-! ## Structure of a successful match

These inversion lemmas recover, from `extract_info_from_filename fn =
some m`, the decomposition of `fn` into the pieces of the pattern.  The
trailing `$` contributes the `tail = [] ∨ tail = ['\n']` disjunct. -/

theorem toList_mk (l : List Char) : (String.mk l).toList = l := rfl

theorem dollarOk_cases {rest : List Char} (h : dollarOk rest = true) :
    rest = [] ∨ rest = ['\n'] := by
  match rest with
  | [] => exact Or.inl rfl
  | [c] =>
    simp only [dollarOk, decide_eq_true_eq] at h
    exact Or.inr (by rw [h])
  | _ :: _ :: _ => simp [dollarOk] at h

theorem siteHere_eq_some {s site : List Char} (h : siteHere s = some site) :
    ∃ a b c rest,
      s = a :: b :: c :: '-' :: 'h' :: 'd' :: '5' :: rest ∧
        isAlphaChar a = true ∧ isAlphaChar b = true ∧ isAlphaChar c = true ∧
        (rest = [] ∨ rest = ['\n']) ∧ site = [a, b, c] := by
  unfold siteHere at h
  split at h
  case h_1 a b c rest =>
    split at h
    case isTrue hg =>
      simp only [Bool.and_eq_true] at hg
      obtain ⟨⟨⟨ha, hb⟩, hc⟩, hd⟩ := hg
      exact ⟨a, b, c, rest, rfl, ha, hb, hc, dollarOk_cases hd,
        (Option.some_inj.mp h).symm⟩
    case isFalse => exact absurd h (by simp)
  case h_2 => exact absurd h (by simp)

theorem matchTail_eq_some {s site : List Char} (h : matchTail s = some site) :
    ∃ mid tail,
      s = mid ++ site ++ '-' :: 'h' :: 'd' :: '5' :: tail ∧
        site.length = 3 ∧ site.all isAlphaChar = true ∧
        (tail = [] ∨ tail = ['\n']) := by
  induction s with
  | nil => simp [matchTail] at h
  | cons c0 rest0 ih =>
    rw [matchTail] at h
    split at h
    next site1 hs =>
      simp only [Option.some_inj] at h
      subst h
      obtain ⟨a, b, c, rest, hshape, ha, hb, hc, hrest, hsite⟩ :=
        siteHere_eq_some hs
      subst hsite
      refine ⟨[], rest, ?_, rfl, ?_, hrest⟩
      · rw [hshape]; rfl
      · simp [List.all, ha, hb, hc]
    next hs =>
      split at h
      next => exact absurd h (by simp)
      next =>
        obtain ⟨mid, tail, hshape, hlen, hall, htail⟩ := ih h
        exact ⟨c0 :: mid, tail, by simp [hshape], hlen, hall, htail⟩

theorem matchAt_eq_some {s : List Char} {m : ExtractedMetadata}
    (h : matchAt s = some m) :
    ∃ rad mid tail,
      s = '_' :: (rad ++ '-' :: (m.timestamp.toList ++ '-' ::
          (mid ++ m.site.toList ++ '-' :: 'h' :: 'd' :: '5' :: tail))) ∧
        rad ≠ [] ∧ rad.all isDigitChar = true ∧
        m.timestamp.toList.length = 14 ∧
        m.timestamp.toList.all isDigitChar = true ∧
        m.site.toList.length = 3 ∧ m.site.toList.all isAlphaChar = true ∧
        (tail = [] ∨ tail = ['\n']) ∧ m.RadID = digitsToNat rad := by
  unfold matchAt at h
  split at h
  case h_1 s1 =>
    simp only [] at h
    split at h
    next => exact absurd h (by simp)
    next hne =>
      split at h
      next s2 hdrop =>
        split at h
        next hts =>
          simp only [Bool.and_eq_true, decide_eq_true_eq] at hts
          split at h
          next s3 hdrop14 =>
            cases htm : matchTail s3 with
            | none => rw [htm] at h; exact absurd h (by simp)
            | some site =>
              rw [htm] at h
              simp only [Option.map_some', Option.some_inj] at h
              subst h
              obtain ⟨mid, tail, hshape, hlen, hall, htail⟩ :=
                matchTail_eq_some htm
              have h1 : s1 = s1.takeWhile isDigitChar ++ '-' :: s2 := by
                conv_lhs =>
                  rw [← List.takeWhile_append_dropWhile (p := isDigitChar) (l := s1)]
                rw [hdrop]
              have h2 : s2 = s2.take 14 ++ '-' :: s3 := by
                conv_lhs => rw [← List.take_append_drop 14 s2]
                rw [hdrop14]
              refine ⟨s1.takeWhile isDigitChar, mid, tail, ?_, ?_,
                List.all_takeWhile, hts.1, hts.2, hlen, hall, htail, rfl⟩
              · conv_lhs => rw [h1, h2, hshape]
                simp [toList_mk]
              · intro hemp
                exact hne (by simp [List.isEmpty_iff, hemp])
          next => exact absurd h (by simp)
        next => exact absurd h (by simp)
      next => exact absurd h (by simp)
  case h_2 => exact absurd h (by simp)

theorem searchHd5_eq_some {s : List Char} {m : ExtractedMetadata}
    (h : searchHd5 s = some m) :
    ∃ pre s1, s = pre ++ s1 ∧ matchAt s1 = some m := by
  induction s with
  | nil => simp [searchHd5] at h
  | cons c rest ih =>
    rw [searchHd5] at h
    cases hm : matchAt (c :: rest) with
    | some m1 =>
      rw [hm] at h
      simp only [Option.some_inj] at h
      exact ⟨[], c :: rest, rfl, by rw [hm, h]⟩
    | none =>
      rw [hm] at h
      obtain ⟨pre, s1, hshape, hmatch⟩ := ih h
      exact ⟨c :: pre, s1, by rw [List.cons_append, hshape], hmatch⟩

/-- Master inversion: any successful extraction decomposes the filename
as prefix, underscore, a non-empty digit run (the radar id), hyphen, a
14-digit timestamp, hyphen, free text, the 3-letter site, the literal
`-hd5`, and a tail that is empty or a single final newline. -/
theorem extract_some_structure {fn : String} {m : ExtractedMetadata}
    (h : extract_info_from_filename fn = some m) :
    ∃ pre rad mid tail,
      fn.toList = pre ++ '_' :: (rad ++ '-' :: (m.timestamp.toList ++ '-' ::
          (mid ++ m.site.toList ++ '-' :: 'h' :: 'd' :: '5' :: tail))) ∧
        rad ≠ [] ∧ rad.all isDigitChar = true ∧
        m.timestamp.toList.length = 14 ∧
        m.timestamp.toList.all isDigitChar = true ∧
        m.site.toList.length = 3 ∧ m.site.toList.all isAlphaChar = true ∧
        (tail = [] ∨ tail = ['\n']) ∧ m.RadID = digitsToNat rad := by
  obtain ⟨pre0, s1, hshape, hmatch⟩ := searchHd5_eq_some h
  obtain ⟨rad, mid, tail, hshape1, hcond⟩ := matchAt_eq_some hmatch
  exact ⟨pre0, rad, mid, tail, by rw [hshape, hshape1], hcond⟩

/-- C5: `extract_info_from_filename` maps `_10132-20250529110000-deboo-hd5`
to RadID 10132, timestamp `20250529110000` and site `boo`; it maps
`radar_photo.png` to no metadata; and any filename on which it returns
metadata admits the fixed pattern decomposition, so a filename with no
such decomposition yields no metadata (and never an error: the function
is total into `Option`). -/
theorem claim5_pattern_extraction :
    extract_info_from_filename "_10132-20250529110000-deboo-hd5" =
        some ⟨10132, "20250529110000", "boo"⟩ ∧
      extract_info_from_filename "radar_photo.png" = none ∧
      ∀ fn m, extract_info_from_filename fn = some m → SpecHd5Decomp fn := by
  refine ⟨by decide, by decide, fun fn m h => ?_⟩
  obtain ⟨pre, rad, mid, tail, hshape, hrad, hradall, hlen, hall, hslen, hsall,
    htail, _⟩ := extract_some_structure h
  exact ⟨pre, rad, m.timestamp.toList, mid, m.site.toList, tail, hshape, hrad,
    hradall, hlen, hall, hslen, hsall, htail⟩

/-- Witness for C5: the decomposition instantiated on a concrete
successful extraction. -/
theorem claim5_pattern_extraction_witness :
    SpecHd5Decomp "_10132-20250529110000-deboo-hd5" :=
  claim5_pattern_extraction.2.2 "_10132-20250529110000-deboo-hd5"
    ⟨10132, "20250529110000", "boo"⟩ (by decide)

/-- C10 counterexample: on `_1-20250529110000-xabc-hd5` followed by a
newline, the extractor returns metadata (Python `$` matches just before
a final newline), yet the filename does not end with `-hd5`. -/
theorem claim10_counterexample :
    extract_info_from_filename "_1-20250529110000-xabc-hd5\n" =
        some ⟨1, "20250529110000", "abc"⟩ ∧
      strEndsWith "_1-20250529110000-xabc-hd5\n" "-hd5" = false := by decide

/-- C10 (amended): whenever the extractor returns metadata, the
filename ends with the site followed by `-hd5`, up to an optional
single final newline admitted by `$`; the site is exactly the three
alphabetic characters immediately preceding that `-hd5`, returned
verbatim. -/
theorem claim10_end_anchor_amended (fn : String) (m : ExtractedMetadata)
    (h : extract_info_from_filename fn = some m) :
    ∃ pre tail,
      fn.toList = pre ++ m.site.toList ++ '-' :: 'h' :: 'd' :: '5' :: tail ∧
        (tail = [] ∨ tail = ['\n']) ∧
        m.site.toList.length = 3 ∧ m.site.toList.all isAlphaChar = true := by
  obtain ⟨pre, rad, mid, tail, hshape, _, _, _, _, hslen, hsall, htail, _⟩ :=
    extract_some_structure h
  refine ⟨pre ++ '_' :: (rad ++ '-' :: (m.timestamp.toList ++ '-' :: mid)),
    tail, ?_, htail, hslen, hsall⟩
  rw [hshape]
  simp

/-- Witness for the amended C10, on an uppercase site code (case is
accepted and preserved verbatim). -/
theorem claim10_end_anchor_amended_witness :
    ∃ pre tail,
      ("_7-20250529110000-xABC-hd5").toList =
          pre ++ ("ABC").toList ++ '-' :: 'h' :: 'd' :: '5' :: tail ∧
        (tail = [] ∨ tail = ['\n']) ∧
        ("ABC").toList.length = 3 ∧ ("ABC").toList.all isAlphaChar = true :=
  claim10_end_anchor_amended "_7-20250529110000-xABC-hd5"
    ⟨7, "20250529110000", "ABC"⟩ (by decide)

/-! ## The reconciler -/

/-- `clean_local_files` keeps exactly the entries that are in the found
set or whose deletion failed, and logs exactly the failed deletions. -/
theorem clean_eq_filter (env : Env) (remote : List Path) (fs : FS) :
    clean_local_files env remote fs =
      (fs.filter (fun e => decide (e.1 ∈ remote) || !env.deleteOk e.1),
        (fs.filter (fun e => !decide (e.1 ∈ remote) && !env.deleteOk e.1)).map
          (fun e => e.1)) := by
  induction fs with
  | nil => rfl
  | cons e rest ih =>
    rw [clean_local_files, ih]
    by_cases hm : e.1 ∈ remote
    · simp [hm, List.filter_cons]
    · by_cases hd : env.deleteOk e.1 <;> simp [hm, hd, List.filter_cons]

/-- C7: after a sync run the reconciler deletes every local file whose
relative path is not in the found-set and whose deletion succeeds,
keeps every file whose path is in the found-set untouched, logs (and
keeps) every file whose deletion fails, and the run always continues to
index building and the final completion message. -/
theorem claim7_reconciler_behaviour (env : Env) (remote : List Path) (fs : FS) :
    (∀ e, e ∈ fs →
        (e ∈ (clean_local_files env remote fs).1 ↔
          (e.1 ∈ remote ∨ env.deleteOk e.1 = false)))
  ∧ (∀ e, e ∈ fs → e.1 ∉ remote → env.deleteOk e.1 = false →
        e.1 ∈ (clean_local_files env remote fs).2)
  ∧ (∀ fuel root fs0 prev,
        (start_sync env fuel root fs0 prev).completed = true ∧
          (start_sync env fuel root fs0 prev).index =
            build_full_index_from_local (start_sync env fuel root fs0 prev).fsFinal) := by
  refine ⟨fun e he => ?_, fun e he hm hd => ?_, fun fuel root fs0 prev => ⟨rfl, rfl⟩⟩
  · rw [clean_eq_filter]
    simp only [List.mem_filter, Bool.or_eq_true, Bool.not_eq_true',
      decide_eq_true_eq]
    constructor
    · rintro ⟨_, hc⟩; exact hc
    · intro hc; exact ⟨he, hc⟩
  · rw [clean_eq_filter]
    simp only [List.mem_map, List.mem_filter, Bool.and_eq_true,
      Bool.not_eq_true', decide_eq_false_iff_not]
    exact ⟨e, ⟨he, by simp [hm, hd]⟩, rfl⟩

/-- Witness for C7: a kept found file, a logged failed deletion that
remains, a deleted orphan, and a completed run, all concrete. -/
theorem claim7_reconciler_behaviour_witness :
    ((["keep"], [1]) ∈
        (clean_local_files envDel [["keep"]]
          [(["keep"], [1]), (["bad"], [2]), (["gone"], [3])]).1)
  ∧ (["bad"] ∈
        (clean_local_files envDel [["keep"]]
          [(["keep"], [1]), (["bad"], [2]), (["gone"], [3])]).2)
  ∧ (¬((["gone"], [3]) ∈
        (clean_local_files envDel [["keep"]]
          [(["keep"], [1]), (["bad"], [2]), (["gone"], [3])]).1))
  ∧ (start_sync envDel 1 (RemoteNode.node [] [])
        [(["keep"], [1])] []).completed = true := by
  refine ⟨?_, ?_, ?_, ?_⟩
  · exact ((claim7_reconciler_behaviour envDel [["keep"]]
      [(["keep"], [1]), (["bad"], [2]), (["gone"], [3])]).1
      (["keep"], [1]) (by decide)).mpr (Or.inl (by decide))
  · exact (claim7_reconciler_behaviour envDel [["keep"]]
      [(["keep"], [1]), (["bad"], [2]), (["gone"], [3])]).2.1
      (["bad"], [2]) (by decide) (by decide) (by decide)
  · intro hmem
    have hc := ((claim7_reconciler_behaviour envDel [["keep"]]
      [(["keep"], [1]), (["bad"], [2]), (["gone"], [3])]).1
      (["gone"], [3]) (by decide)).mp hmem
    revert hc; decide
  · exact ((claim7_reconciler_behaviour envDel [] []).2.2 1
      (RemoteNode.node [] []) [(["keep"], [1])] []).1

/-! ## The listing fetcher -/

/-- C8: on a successful fetch the fetcher returns exactly the anchor
hrefs of the page that are present, non-empty and not `../`; on a
failed fetch it returns the empty listing and logs the failure, and
`sync_directory` then processes the directory exactly as it would an
empty directory page — the sync is not aborted. -/
theorem claim8_listing_fetcher :
    (∀ (anchors : List (Option String)) (h : String),
        h ∈ (fetch_directory_listing (Except.ok anchors)).1 ↔
          (some h ∈ anchors ∧ h ≠ "" ∧ h ≠ "../"))
  ∧ fetch_directory_listing (Except.error ()) = ([], true)
  ∧ (∀ env fuel anchors children rpath lrel fs, env.fetchOk rpath = false →
        sync_directory env (fuel + 1) (RemoteNode.node anchors children)
            rpath lrel fs =
          sync_directory env (fuel + 1) (RemoteNode.node [] children)
            rpath lrel fs) := by
  refine ⟨fun anchors h => ?_, rfl, fun env fuel anchors children rpath lrel fs hf => ?_⟩
  · simp only [fetch_directory_listing, List.mem_filterMap]
    constructor
    · rintro ⟨a, ha, hfa⟩
      match a with
      | none => simp at hfa
      | some x =>
        simp only [] at hfa
        split at hfa
        next hg =>
          simp only [Bool.and_eq_true, bne_iff_ne, ne_eq, decide_eq_true_eq] at hg
          obtain ⟨hx1, hx2⟩ := hg
          cases hfa
          exact ⟨ha, hx1, hx2⟩
        next => simp at hfa
    · rintro ⟨hm, h1, h2⟩
      refine ⟨some h, hm, ?_⟩
      simp [h1, h2]
  · rw [sync_directory, sync_directory, hf]
    simp

/-- Witness for C8: a concrete failing directory, processed like an
empty one. -/
theorem claim8_listing_fetcher_witness :
    sync_directory ⟨fun _ => false, fun _ _ => AttemptOutcome.connectFail,
        fun _ => true⟩ 1
        (RemoteNode.node [some "_5-20250529110000-xdeb-hd5"] []) [] [] [] =
      sync_directory ⟨fun _ => false, fun _ _ => AttemptOutcome.connectFail,
        fun _ => true⟩ 1 (RemoteNode.node [] []) [] [] [] :=
  claim8_listing_fetcher.2.2
    ⟨fun _ => false, fun _ _ => AttemptOutcome.connectFail, fun _ => true⟩ 0
    [some "_5-20250529110000-xdeb-hd5"] [] [] [] [] rfl

/-! ## The index builder -/

/-- C9 counterexample: a local file whose name yields metadata under
the extractor (because `$` accepts a final newline) but which the index
builder excludes, since its additional `endswith('-hd5')` guard fails;
so the index does not contain exactly the metadata-yielding files. -/
theorem claim9_counterexample :
    extract_info_from_filename "_1-20250529110000-xabc-hd5\n" ≠ none ∧
      build_full_index_from_local [(["_1-20250529110000-xabc-hd5\n"], [0])] = [] := by
  decide

/-- C9 (amended): the index contains exactly those local files whose
final name component both ends with `-hd5` and yields metadata, each
serialized with fields path, RadID, timestamp and site; and the index
written by a run is computed solely from the reconciled local tree,
fully replacing any prior index content. -/
theorem claim9_index_content_amended :
    (∀ (fs : FS) (e : IndexEntry),
        e ∈ build_full_index_from_local fs ↔
          ∃ c, (e.path, c) ∈ fs ∧
            strEndsWith (lastComponent e.path) "-hd5" = true ∧
            extract_info_from_filename (lastComponent e.path) =
              some ⟨e.RadID, e.timestamp, e.site⟩)
  ∧ (∀ env fuel root fs0 prev prev2,
        (start_sync env fuel root fs0 prev).index =
            (start_sync env fuel root fs0 prev2).index ∧
          (start_sync env fuel root fs0 prev).index =
            build_full_index_from_local (start_sync env fuel root fs0 prev).fsFinal) := by
  refine ⟨fun fs e => ?_, fun env fuel root fs0 prev prev2 => ⟨rfl, rfl⟩⟩
  simp only [build_full_index_from_local, List.mem_filterMap]
  constructor
  · rintro ⟨a, ha, hfa⟩
    split at hfa
    next hend =>
      split at hfa
      next m hm =>
        cases hfa
        exact ⟨a.2, ha, hend, by rw [hm]⟩
      next => simp at hfa
    next => simp at hfa
  · rintro ⟨c, hmem, hend, hx⟩
    refine ⟨(e.path, c), hmem, ?_⟩
    show
      (if strEndsWith (lastComponent e.path) "-hd5" = true then
        match extract_info_from_filename (lastComponent e.path) with
        | some m => some ⟨e.path, m.RadID, m.timestamp, m.site⟩
        | none => none
      else none) = some e
    rw [if_pos hend, hx]

/-! ## Filesystem effect of one run

Lemmas relating the found set, the submitted downloads and the
filesystem produced by `sync_directory`. -/

theorem fsSet_lookup_self (fs : FS) (p : Path) (c : List Nat) :
    fsLookup (fsSet fs p c) p = some c := by
  induction fs with
  | nil => simp [fsSet, fsLookup]
  | cons e rest ih =>
    by_cases hp : e.1 = p
    · simp [fsSet, hp, fsLookup]
    · simp [fsSet, hp, fsLookup, ih]

theorem fsSet_mono {fs : FS} {q : Path} (p : Path) (c : List Nat)
    (h : (fsLookup fs q).isSome = true) :
    (fsLookup (fsSet fs p c) q).isSome = true := by
  induction fs with
  | nil => simp [fsLookup] at h
  | cons e rest ih =>
    rw [fsLookup] at h
    by_cases hp : e.1 = p
    · rw [fsSet, if_pos hp, fsLookup]
      by_cases hq : (p, c).1 = q
      · rw [if_pos hq]; rfl
      · rw [if_neg hq]
        rw [if_neg (by rw [hp]; exact hq)] at h
        exact h
    · rw [fsSet, if_neg hp, fsLookup]
      by_cases hq : e.1 = q
      · rw [if_pos hq]; rfl
      · rw [if_neg hq] at h ⊢
        exact ih h

theorem downloadAttempts_mono (env : Env) (p : Path) {q : Path} :
    ∀ (i k : Nat) (fs : FS), (fsLookup fs q).isSome = true →
      (fsLookup (downloadAttempts env p i k fs).2.1 q).isSome = true := by
  intro i k
  induction k generalizing i with
  | zero => intro fs h; exact h
  | succ k ih =>
    intro fs h
    rw [downloadAttempts]
    cases env.attempt p i with
    | success c => exact fsSet_mono p c h
    | connectFail =>
      by_cases hk : k = 0
      · simp only [hk, if_pos rfl]; exact h
      · simp only [if_neg hk]; exact ih (i + 1) fs h
    | streamFail c =>
      by_cases hk : k = 0
      · simp only [hk, if_pos rfl]; exact fsSet_mono p c h
      · simp only [if_neg hk]; exact ih (i + 1) (fsSet fs p c) (fsSet_mono p c h)

theorem download_file_mono (env : Env) (p : Path) {q : Path} (fs : FS)
    (h : (fsLookup fs q).isSome = true) :
    (fsLookup (download_file env p fs).2.1 q).isSome = true :=
  downloadAttempts_mono env p 0 3 fs h

theorem download_tasks_mono (env : Env) (lrel : Path) {q : Path} :
    ∀ (links : List String) (fs : FS), (fsLookup fs q).isSome = true →
      (fsLookup (download_tasks env lrel links fs).fs q).isSome = true := by
  intro links
  induction links with
  | nil => intro fs h; exact h
  | cons link rest ih =>
    intro fs h
    rw [download_tasks]
    cases extract_info_from_filename (basename link) with
    | none => exact ih fs h
    | some m =>
      by_cases hex : (fsLookup fs (lrel ++ [basename link])).isSome = true
      · simp only [if_pos hex]
        exact ih fs h
      · simp only [if_neg hex]
        exact ih _ (download_file_mono env _ fs h)

theorem folder_tasks_mono {syncf : RemoteNode → Path → Path → FS → SyncRes}
    (hm : ∀ c rp lr fs q, (fsLookup fs q).isSome = true →
      (fsLookup (syncf c rp lr fs).fs q).isSome = true)
    (children : List (String × RemoteNode)) {q : Path} :
    ∀ (dirs : List String) (rp lr : Path) (fs : FS),
      (fsLookup fs q).isSome = true →
      (fsLookup (folder_tasks syncf children dirs rp lr fs).fs q).isSome = true := by
  intro dirs
  induction dirs with
  | nil => intro rp lr fs h; exact h
  | cons d rest ih =>
    intro rp lr fs h
    rw [folder_tasks]
    cases lookupChild children d with
    | some c => exact ih rp lr _ (hm c _ _ fs q h)
    | none => exact ih rp lr fs h

theorem sync_directory_mono (env : Env) :
    ∀ (fuel : Nat) (node : RemoteNode) (rpath lrel : Path) (fs : FS) (q : Path),
      (fsLookup fs q).isSome = true →
      (fsLookup (sync_directory env fuel node rpath lrel fs).fs q).isSome = true := by
  intro fuel
  induction fuel with
  | zero => intro node rp lr fs q h; exact h
  | succ n ih =>
    intro node rp lr fs q h
    cases node with
    | node anchors children =>
      rw [sync_directory]
      exact folder_tasks_mono (fun c rp1 lr1 fs1 q1 => ih c rp1 lr1 fs1 q1)
        children _ rp lr _ (download_tasks_mono env lr _ fs h)

theorem download_tasks_found (env : Env) (lrel : Path) :
    ∀ (links : List String) (fs : FS),
      (download_tasks env lrel links fs).found = observedFiles lrel links := by
  intro links
  induction links with
  | nil => intro fs; rfl
  | cons link rest ih =>
    intro fs
    rw [download_tasks, observedFiles]
    cases extract_info_from_filename (basename link) with
    | none => exact ih fs
    | some m =>
      by_cases hex : (fsLookup fs (lrel ++ [basename link])).isSome = true
      · simp only [if_pos hex]
        rw [ih fs]
      · simp only [if_neg hex]
        rw [ih _]

theorem folder_tasks_found {syncf : RemoteNode → Path → Path → FS → SyncRes}
    {obsf : RemoteNode → Path → Path → List Path}
    (hf : ∀ c rp lr fs, (syncf c rp lr fs).found = obsf c rp lr)
    (children : List (String × RemoteNode)) :
    ∀ (dirs : List String) (rp lr : Path) (fs : FS),
      (folder_tasks syncf children dirs rp lr fs).found =
        observedDirs obsf children dirs rp lr := by
  intro dirs
  induction dirs with
  | nil => intro rp lr fs; rfl
  | cons d rest ih =>
    intro rp lr fs
    rw [folder_tasks, observedDirs]
    cases lookupChild children d with
    | some c => rw [hf, ih]
    | none => rw [ih]

theorem sync_directory_found (env : Env) :
    ∀ (fuel : Nat) (node : RemoteNode) (rpath lrel : Path) (fs : FS),
      (sync_directory env fuel node rpath lrel fs).found =
        observedHd5 env.fetchOk fuel node rpath lrel := by
  intro fuel
  induction fuel with
  | zero => intro node rp lr fs; rfl
  | succ n ih =>
    intro node rp lr fs
    cases node with
    | node anchors children =>
      rw [sync_directory, observedHd5]
      rw [download_tasks_found env lr _ fs,
        folder_tasks_found (fun c rp1 lr1 fs1 => ih c rp1 lr1 fs1) children _ rp lr _]

theorem download_tasks_skip (env : Env) (lrel : Path) {p : Path} :
    ∀ (links : List String) (fs : FS), (fsLookup fs p).isSome = true →
      p ∉ (download_tasks env lrel links fs).attempted := by
  intro links
  induction links with
  | nil => intro fs _ hmem; simp [download_tasks] at hmem
  | cons link rest ih =>
    intro fs h
    rw [download_tasks]
    cases extract_info_from_filename (basename link) with
    | none => exact ih fs h
    | some m =>
      by_cases hex : (fsLookup fs (lrel ++ [basename link])).isSome = true
      · simp only [if_pos hex]
        exact ih fs h
      · simp only [if_neg hex]
        intro hmem
        cases hmem with
        | head => exact hex h
        | tail _ hmem2 => exact ih _ (download_file_mono env _ fs h) hmem2

theorem folder_tasks_skip {syncf : RemoteNode → Path → Path → FS → SyncRes}
    (hm : ∀ c rp lr fs q, (fsLookup fs q).isSome = true →
      (fsLookup (syncf c rp lr fs).fs q).isSome = true)
    (hs : ∀ c rp lr fs q, (fsLookup fs q).isSome = true →
      q ∉ (syncf c rp lr fs).attempted)
    (children : List (String × RemoteNode)) {p : Path} :
    ∀ (dirs : List String) (rp lr : Path) (fs : FS),
      (fsLookup fs p).isSome = true →
      p ∉ (folder_tasks syncf children dirs rp lr fs).attempted := by
  intro dirs
  induction dirs with
  | nil => intro rp lr fs _ hmem; simp [folder_tasks] at hmem
  | cons d rest ih =>
    intro rp lr fs h
    rw [folder_tasks]
    cases lookupChild children d with
    | some c =>
      intro hmem
      rcases List.mem_append.mp hmem with h1 | h2
      · exact hs c _ _ fs p h h1
      · exact ih rp lr _ (hm c _ _ fs p h) h2
    | none =>
      intro hmem
      rcases List.mem_append.mp hmem with h1 | h2
      · exact absurd h1 (List.not_mem_nil p)
      · exact ih rp lr fs h h2

theorem sync_directory_skip (env : Env) :
    ∀ (fuel : Nat) (node : RemoteNode) (rpath lrel : Path) (fs : FS) (p : Path),
      (fsLookup fs p).isSome = true →
      p ∉ (sync_directory env fuel node rpath lrel fs).attempted := by
  intro fuel
  induction fuel with
  | zero => intro node rp lr fs p _ hmem; simp [sync_directory] at hmem
  | succ n ih =>
    intro node rp lr fs p h
    cases node with
    | node anchors children =>
      rw [sync_directory]
      intro hmem
      rcases List.mem_append.mp hmem with h1 | h2
      · exact download_tasks_skip env lr _ fs h h1
      · exact folder_tasks_skip (fun c rp1 lr1 fs1 q1 => sync_directory_mono env n c rp1 lr1 fs1 q1)
          (fun c rp1 lr1 fs1 q1 => ih c rp1 lr1 fs1 q1) children _ rp lr _
          (download_tasks_mono env lr _ fs h) h2

theorem download_tasks_cover (env : Env) (lrel : Path) {p : Path} :
    ∀ (links : List String) (fs : FS),
      p ∈ (download_tasks env lrel links fs).found →
      p ∉ (download_tasks env lrel links fs).attempted →
      (fsLookup (download_tasks env lrel links fs).fs p).isSome = true := by
  intro links
  induction links with
  | nil => intro fs hf _; simp [download_tasks] at hf
  | cons link rest ih =>
    intro fs hf ha
    rw [download_tasks] at hf ha ⊢
    cases hx : extract_info_from_filename (basename link) with
    | none =>
      simp only [hx] at hf ha ⊢
      exact ih fs hf ha
    | some m =>
      simp only [hx] at hf ha ⊢
      by_cases hex : (fsLookup fs (lrel ++ [basename link])).isSome = true
      · simp only [if_pos hex] at hf ha ⊢
        rw [List.mem_cons] at hf
        rcases hf with hf1 | hf2
        · subst hf1
          exact download_tasks_mono env lrel rest fs hex
        · exact ih fs hf2 ha
      · simp only [if_neg hex] at hf ha ⊢
        rw [List.mem_cons] at hf
        rcases hf with hf1 | hf2
        · exact absurd (List.mem_cons.mpr (Or.inl hf1)) ha
        · exact ih _ hf2 (fun hmem => ha (List.mem_cons.mpr (Or.inr hmem)))

theorem folder_tasks_cover {syncf : RemoteNode → Path → Path → FS → SyncRes}
    (hm : ∀ c rp lr fs q, (fsLookup fs q).isSome = true →
      (fsLookup (syncf c rp lr fs).fs q).isSome = true)
    (hcov : ∀ c rp lr fs q, q ∈ (syncf c rp lr fs).found →
      q ∉ (syncf c rp lr fs).attempted →
      (fsLookup (syncf c rp lr fs).fs q).isSome = true)
    (children : List (String × RemoteNode)) {p : Path} :
    ∀ (dirs : List String) (rp lr : Path) (fs : FS),
      p ∈ (folder_tasks syncf children dirs rp lr fs).found →
      p ∉ (folder_tasks syncf children dirs rp lr fs).attempted →
      (fsLookup (folder_tasks syncf children dirs rp lr fs).fs p).isSome = true := by
  intro dirs
  induction dirs with
  | nil => intro rp lr fs hf _; simp [folder_tasks] at hf
  | cons d rest ih =>
    intro rp lr fs hf ha
    rw [folder_tasks] at hf ha ⊢
    cases hlk : lookupChild children d with
    | some c =>
      simp only [hlk] at hf ha ⊢
      simp only [List.mem_append] at hf ha
      rcases hf with hf1 | hf2
      · have h1 : (fsLookup (syncf c (rp ++ splitPath d) (lr ++ splitPath d) fs).fs p).isSome = true :=
          hcov c _ _ fs p hf1 (fun hmem => ha (Or.inl hmem))
        exact folder_tasks_mono hm children rest rp lr _ h1
      · exact ih rp lr _ hf2 (fun hmem => ha (Or.inr hmem))
    | none =>
      simp only [hlk] at hf ha ⊢
      simp only [List.mem_append, List.not_mem_nil, false_or] at hf ha
      exact ih rp lr fs hf ha

theorem sync_directory_cover (env : Env) :
    ∀ (fuel : Nat) (node : RemoteNode) (rpath lrel : Path) (fs : FS) (p : Path),
      p ∈ (sync_directory env fuel node rpath lrel fs).found →
      p ∉ (sync_directory env fuel node rpath lrel fs).attempted →
      (fsLookup (sync_directory env fuel node rpath lrel fs).fs p).isSome = true := by
  intro fuel
  induction fuel with
  | zero => intro node rp lr fs p hf _; simp [sync_directory] at hf
  | succ n ih =>
    intro node rp lr fs p hf ha
    cases node with
    | node anchors children =>
      rw [sync_directory] at hf ha ⊢
      simp only [List.mem_append] at hf ha
      rcases hf with hf1 | hf2
      · have h1 := download_tasks_cover env lr _ fs hf1 (fun hmem => ha (Or.inl hmem))
        exact folder_tasks_mono
          (fun c rp1 lr1 fs1 q1 => sync_directory_mono env n c rp1 lr1 fs1 q1)
          children _ rp lr _ h1
      · exact folder_tasks_cover
          (fun c rp1 lr1 fs1 q1 => sync_directory_mono env n c rp1 lr1 fs1 q1)
          (fun c rp1 lr1 fs1 q1 => ih c rp1 lr1 fs1 q1) children _ rp lr _
          hf2 (fun hmem => ha (Or.inr hmem))

theorem download_file_reliable_self {env : Env} (hr : Reliable env)
    (p : Path) (fs : FS) :
    (fsLookup (download_file env p fs).2.1 p).isSome = true := by
  rw [download_file, downloadAttempts]
  have h0 := hr p 0
  cases hx : env.attempt p 0 with
  | success c => simp [fsSet_lookup_self]
  | connectFail => rw [hx] at h0; simp [AttemptOutcome.isSuccess] at h0
  | streamFail c => rw [hx] at h0; simp [AttemptOutcome.isSuccess] at h0

theorem download_tasks_reliable (env : Env) (hr : Reliable env) (lrel : Path)
    {p : Path} :
    ∀ (links : List String) (fs : FS),
      p ∈ (download_tasks env lrel links fs).found →
      (fsLookup (download_tasks env lrel links fs).fs p).isSome = true := by
  intro links
  induction links with
  | nil => intro fs hf; simp [download_tasks] at hf
  | cons link rest ih =>
    intro fs hf
    rw [download_tasks] at hf ⊢
    cases hx : extract_info_from_filename (basename link) with
    | none =>
      simp only [hx] at hf ⊢
      exact ih fs hf
    | some m =>
      simp only [hx] at hf ⊢
      by_cases hex : (fsLookup fs (lrel ++ [basename link])).isSome = true
      · simp only [if_pos hex] at hf ⊢
        rw [List.mem_cons] at hf
        rcases hf with hf1 | hf2
        · subst hf1
          exact download_tasks_mono env lrel rest fs hex
        · exact ih fs hf2
      · simp only [if_neg hex] at hf ⊢
        rw [List.mem_cons] at hf
        rcases hf with hf1 | hf2
        · subst hf1
          exact download_tasks_mono env lrel rest _
            (download_file_reliable_self hr _ fs)
        · exact ih _ hf2

theorem folder_tasks_reliable {syncf : RemoteNode → Path → Path → FS → SyncRes}
    (hm : ∀ c rp lr fs q, (fsLookup fs q).isSome = true →
      (fsLookup (syncf c rp lr fs).fs q).isSome = true)
    (hrel : ∀ c rp lr fs q, q ∈ (syncf c rp lr fs).found →
      (fsLookup (syncf c rp lr fs).fs q).isSome = true)
    (children : List (String × RemoteNode)) {p : Path} :
    ∀ (dirs : List String) (rp lr : Path) (fs : FS),
      p ∈ (folder_tasks syncf children dirs rp lr fs).found →
      (fsLookup (folder_tasks syncf children dirs rp lr fs).fs p).isSome = true := by
  intro dirs
  induction dirs with
  | nil => intro rp lr fs hf; simp [folder_tasks] at hf
  | cons d rest ih =>
    intro rp lr fs hf
    rw [folder_tasks] at hf ⊢
    cases hlk : lookupChild children d with
    | some c =>
      simp only [hlk] at hf ⊢
      simp only [List.mem_append] at hf
      rcases hf with hf1 | hf2
      · exact folder_tasks_mono hm children rest rp lr _ (hrel c _ _ fs p hf1)
      · exact ih rp lr _ hf2
    | none =>
      simp only [hlk] at hf ⊢
      simp only [List.mem_append, List.not_mem_nil, false_or] at hf
      exact ih rp lr fs hf

theorem sync_directory_reliable (env : Env) (hr : Reliable env) :
    ∀ (fuel : Nat) (node : RemoteNode) (rpath lrel : Path) (fs : FS) (p : Path),
      p ∈ (sync_directory env fuel node rpath lrel fs).found →
      (fsLookup (sync_directory env fuel node rpath lrel fs).fs p).isSome = true := by
  intro fuel
  induction fuel with
  | zero => intro node rp lr fs p hf; simp [sync_directory] at hf
  | succ n ih =>
    intro node rp lr fs p hf
    cases node with
    | node anchors children =>
      rw [sync_directory] at hf ⊢
      simp only [List.mem_append] at hf
      rcases hf with hf1 | hf2
      · exact folder_tasks_mono
          (fun c rp1 lr1 fs1 q1 => sync_directory_mono env n c rp1 lr1 fs1 q1)
          children _ rp lr _ (download_tasks_reliable env hr lr _ fs hf1)
      · exact folder_tasks_reliable
          (fun c rp1 lr1 fs1 q1 => sync_directory_mono env n c rp1 lr1 fs1 q1)
          (fun c rp1 lr1 fs1 q1 => ih c rp1 lr1 fs1 q1) children _ rp lr _ hf2

theorem download_tasks_nochange (env : Env) (lrel : Path) :
    ∀ (links : List String) (fs : FS),
      (∀ p, p ∈ observedFiles lrel links → (fsLookup fs p).isSome = true) →
      (download_tasks env lrel links fs).attempted = [] ∧
        (download_tasks env lrel links fs).fs = fs := by
  intro links
  induction links with
  | nil => intro fs _; exact ⟨rfl, rfl⟩
  | cons link rest ih =>
    intro fs hall
    rw [download_tasks]
    rw [observedFiles] at hall
    cases hx : extract_info_from_filename (basename link) with
    | none =>
      simp only [hx] at hall ⊢
      exact ih fs hall
    | some m =>
      simp only [hx] at hall ⊢
      have hex : (fsLookup fs (lrel ++ [basename link])).isSome = true :=
        hall _ (List.mem_cons_self _ _)
      simp only [if_pos hex]
      exact ih fs (fun p hp => hall p (List.mem_cons_of_mem _ hp))

theorem folder_tasks_nochange {syncf : RemoteNode → Path → Path → FS → SyncRes}
    {obsf : RemoteNode → Path → Path → List Path}
    (hn : ∀ c rp lr fs, (∀ p, p ∈ obsf c rp lr → (fsLookup fs p).isSome = true) →
      (syncf c rp lr fs).attempted = [] ∧ (syncf c rp lr fs).fs = fs)
    (children : List (String × RemoteNode)) :
    ∀ (dirs : List String) (rp lr : Path) (fs : FS),
      (∀ p, p ∈ observedDirs obsf children dirs rp lr →
        (fsLookup fs p).isSome = true) →
      (folder_tasks syncf children dirs rp lr fs).attempted = [] ∧
        (folder_tasks syncf children dirs rp lr fs).fs = fs := by
  intro dirs
  induction dirs with
  | nil => intro rp lr fs _; exact ⟨rfl, rfl⟩
  | cons d rest ih =>
    intro rp lr fs hall
    rw [folder_tasks]
    rw [observedDirs] at hall
    cases hc : lookupChild children d with
    | some c =>
      simp only [hc] at hall ⊢
      have h1 := hn c (rp ++ splitPath d) (lr ++ splitPath d) fs
        (fun p hp => hall p (List.mem_append.mpr (Or.inl hp)))
      have h2 := ih rp lr (syncf c (rp ++ splitPath d) (lr ++ splitPath d) fs).fs
        (fun p hp => by
          rw [h1.2]
          exact hall p (List.mem_append.mpr (Or.inr hp)))
      refine ⟨?_, by rw [h2.2, h1.2]⟩
      rw [h1.1, h2.1]
      rfl
    | none =>
      simp only [hc] at hall ⊢
      have h2 := ih rp lr fs
        (fun p hp => hall p (List.mem_append.mpr (Or.inr hp)))
      refine ⟨?_, h2.2⟩
      rw [h2.1]
      rfl

theorem sync_directory_nochange (env : Env) :
    ∀ (fuel : Nat) (node : RemoteNode) (rpath lrel : Path) (fs : FS),
      (∀ p, p ∈ observedHd5 env.fetchOk fuel node rpath lrel →
        (fsLookup fs p).isSome = true) →
      (sync_directory env fuel node rpath lrel fs).attempted = [] ∧
        (sync_directory env fuel node rpath lrel fs).fs = fs := by
  intro fuel
  induction fuel with
  | zero => intro node rp lr fs _; exact ⟨rfl, rfl⟩
  | succ n ih =>
    intro node rp lr fs hall
    cases node with
    | node anchors children =>
      rw [sync_directory]
      rw [observedHd5] at hall
      simp only [List.mem_append] at hall
      have h1 := download_tasks_nochange env lr _ fs
        (fun p hp => hall p (Or.inl hp))
      have h2 := folder_tasks_nochange
        (fun c rp1 lr1 fs1 hobs => ih c rp1 lr1 fs1 hobs) children _ rp lr
        (download_tasks env lr _ fs).fs
        (fun p hp => by
          rw [h1.2]
          exact hall p (Or.inr hp))
      refine ⟨?_, by rw [h2.2, h1.2]⟩
      rw [h1.1, h2.1]
      rfl

/-! ## Claim C1: pattern filtering and the found set -/

/-- C1 counterexample: a directory listing containing only the file
hyperlink `radar_photo.png`, whose name does not match the hd5 pattern,
with no local file present: `sync_directory` records nothing in the
found set and submits no download, because lines 67-72 filter by the
pattern before download selection — contradicting the claim that every
observed file hyperlink is recorded and attempted. -/
theorem claim1_counterexample :
    (sync_directory envOk 1 (RemoteNode.node [some "radar_photo.png"] [])
        [] [] []).found = [] ∧
      (sync_directory envOk 1 (RemoteNode.node [some "radar_photo.png"] [])
        [] [] []).attempted = [] := by
  decide

/-- C1 (amended): pattern filtering happens during download selection as
well as during metadata extraction: the found set of a run is exactly
the relative paths of the observed file hyperlinks whose basename
matches the hd5 pattern (`observedHd5`), computed from the fetch
outcomes alone — hence independent of the local filesystem and of every
download outcome; only those files are ever submitted for download, a
file already present locally is never submitted, and every found file
not submitted for download exists when the run ends. -/
theorem claim1_found_set_amended :
    (∀ env fuel node rpath lrel fs,
        (sync_directory env fuel node rpath lrel fs).found =
          observedHd5 env.fetchOk fuel node rpath lrel)
  ∧ (∀ env fuel node rpath lrel fs p, (fsLookup fs p).isSome = true →
        p ∉ (sync_directory env fuel node rpath lrel fs).attempted)
  ∧ (∀ env fuel node rpath lrel fs p,
        p ∈ (sync_directory env fuel node rpath lrel fs).found →
        p ∉ (sync_directory env fuel node rpath lrel fs).attempted →
        (fsLookup (sync_directory env fuel node rpath lrel fs).fs p).isSome = true) :=
  ⟨fun env fuel node rp lr fs => sync_directory_found env fuel node rp lr fs,
    fun env fuel node rp lr fs p h => sync_directory_skip env fuel node rp lr fs p h,
    fun env fuel node rp lr fs p hf ha => sync_directory_cover env fuel node rp lr fs p hf ha⟩

/-- Witness for the amended C1 on concrete data: the found set equals
the observed matching files; a locally present file is not submitted;
a found file that was skipped exists at the end of the run. -/
theorem claim1_found_set_amended_witness :
    ((sync_directory envOk 2 treeTwo [] [] []).found =
        observedHd5 envOk.fetchOk 2 treeTwo [] [])
  ∧ (["_5-20250529110000-xdeb-hd5"] ∉
        (sync_directory envOk 2 treeTwo [] []
          [(["_5-20250529110000-xdeb-hd5"], [1])]).attempted)
  ∧ ((fsLookup
        (sync_directory envOk 2 treeTwo [] []
          [(["_5-20250529110000-xdeb-hd5"], [1])]).fs
        ["_5-20250529110000-xdeb-hd5"]).isSome = true) :=
  ⟨claim1_found_set_amended.1 envOk 2 treeTwo [] [] [],
    claim1_found_set_amended.2.1 envOk 2 treeTwo [] []
      [(["_5-20250529110000-xdeb-hd5"], [1])]
      ["_5-20250529110000-xdeb-hd5"] (by decide),
    claim1_found_set_amended.2.2 envOk 2 treeTwo [] []
      [(["_5-20250529110000-xdeb-hd5"], [1])]
      ["_5-20250529110000-xdeb-hd5"] (by decide) (by decide)⟩

/-! ## Claim C2: the concurrency gates -/

/-- C2 counterexample: line 75 creates a fresh `Semaphore(12)` in every
`sync_directory` call, so downloads in two different directories are
guarded by different gate instances.  The schedule `trace13` — reachable
when two sibling directories are traversed concurrently under the
folder gate — is admitted by the semaphores, yet it has 13 downloads
simultaneously in flight across the tree, exceeding the claimed global
bound of 12. -/
theorem claim2_counterexample :
    ValidTrace trace13 = true ∧ inFlight trace13 GateKind.download = 13 := by
  decide

theorem heldAfter_append_acq (tr : List GateEv) (g1 g : GateId) :
    heldAfter (tr ++ [GateEv.acq g1]) g =
      if g1 = g then heldAfter tr g + 1 else heldAfter tr g := by
  simp only [heldAfter, List.foldl_append, List.foldl_cons, List.foldl_nil]

theorem heldAfter_append_rel (tr : List GateEv) (g1 g : GateId) :
    heldAfter (tr ++ [GateEv.rel g1]) g =
      if g1 = g then heldAfter tr g - 1 else heldAfter tr g := by
  simp only [heldAfter, List.foldl_append, List.foldl_cons, List.foldl_nil]

theorem validFrom_bound :
    ∀ (todo done : List GateEv), validFrom done todo = true →
      (∀ n g, heldAfter (List.take n done) g ≤ gateCap g) →
      ∀ n g, heldAfter (List.take n (done ++ todo)) g ≤ gateCap g := by
  intro todo
  induction todo with
  | nil =>
    intro done _ hle n g
    rw [List.append_nil]
    exact hle n g
  | cons ev rest ih =>
    intro done hv hle n g
    have hdone : ∀ g2, heldAfter done g2 ≤ gateCap g2 := by
      intro g2
      have h := hle done.length g2
      rwa [List.take_length] at h
    have hsplit : done ++ ev :: rest = (done ++ [ev]) ++ rest := by simp
    rw [hsplit]
    cases ev with
    | acq g1 =>
      rw [validFrom] at hv
      simp only [Bool.and_eq_true, decide_eq_true_eq] at hv
      refine ih (done ++ [GateEv.acq g1]) hv.2 ?_ n g
      intro n2 g2
      by_cases hn : n2 ≤ done.length
      · rw [List.take_append_of_le_length hn]
        exact hle n2 g2
      · push_neg at hn
        rw [List.take_append_eq_append_take,
          List.take_of_length_le (le_of_lt hn),
          List.take_of_length_le (by simp; omega)]
        rw [heldAfter_append_acq]
        by_cases hg : g1 = g2
        · rw [if_pos hg]
          have := hv.1
          rw [hg] at this
          omega
        · rw [if_neg hg]
          exact hdone g2
    | rel g1 =>
      rw [validFrom] at hv
      simp only [Bool.and_eq_true, decide_eq_true_eq] at hv
      refine ih (done ++ [GateEv.rel g1]) hv.2 ?_ n g
      intro n2 g2
      by_cases hn : n2 ≤ done.length
      · rw [List.take_append_of_le_length hn]
        exact hle n2 g2
      · push_neg at hn
        rw [List.take_append_eq_append_take,
          List.take_of_length_le (le_of_lt hn),
          List.take_of_length_le (by simp; omega)]
        rw [heldAfter_append_rel]
        by_cases hg : g1 = g2
        · rw [if_pos hg]
          exact le_trans (Nat.sub_le _ _) (hdone g2)
        · rw [if_neg hg]
          exact hdone g2

/-- C2 (amended): the two gates bound concurrency per directory, not
across the whole tree: the download gate capacity is 12 and the folder
gate capacity is 17 for every directory, and in every schedule the
semaphores admit, each gate instance — hence each single directory's
simultaneous downloads, and each single directory's simultaneous child
traversals — never exceeds its capacity at any point. -/
theorem claim2_per_directory_gates :
    (∀ d : Path, gateCap ⟨d, GateKind.download⟩ = 12 ∧
        gateCap ⟨d, GateKind.folder⟩ = 17)
  ∧ ∀ tr, ValidTrace tr = true →
      ∀ n g, heldAfter (List.take n tr) g ≤ gateCap g := by
  refine ⟨fun d => ⟨rfl, rfl⟩, fun tr hv n g => ?_⟩
  have h := validFrom_bound tr [] hv
    (fun n2 g2 => by simp [heldAfter, List.take_nil])
  simpa using h n g

/-- Witness for the amended C2 on the concrete admissible schedule. -/
theorem claim2_per_directory_gates_witness :
    heldAfter (List.take 13 trace13) ⟨["a"], GateKind.download⟩ ≤ 12 :=
  claim2_per_directory_gates.2 trace13 (by decide) 13
    ⟨["a"], GateKind.download⟩

/-! ## Claim C3: failure of the root listing -/

/-- C3: evaluation of the code at the failing input.  The remote tree
offers one file, the local mirror holds one previously synced file, and
the root listing fetch raises.  `fetch_directory_listing` swallows the
exception and returns an empty listing, so the run proceeds exactly as
for an empty remote: the found set is empty, reconciliation deletes the
entire local mirror, an empty index overwrites the previous index, and
the final success message is still printed — the failure is not
run-fatal and is not surfaced, contradicting the claim. -/
theorem claim3_root_failure_evaluated :
    start_sync envRootFail 3
        (RemoteNode.node [some "_2-20250101000000-xbbb-hd5"] [])
        [(["_9-20240101000000-xaaa-hd5"], [1])]
        [⟨["_9-20240101000000-xaaa-hd5"], 9, "20240101000000", "aaa"⟩] =
      ⟨[], [], [], [], [], true⟩ := by
  decide

/-! ## Claim C4: retry exhaustion -/

/-- State after a retry loop in which every attempt fails: the result
is `False`, the final failure message is printed, and the destination
is either untouched or holds the partial body of one of the failed
stream attempts. -/
theorem downloadAttempts_fail_state (env : Env) (p : Path) :
    ∀ (k i : Nat) (fs : FS),
      (∀ j, j < k → (env.attempt p (i + j)).isSuccess = false) →
      (downloadAttempts env p i k fs).1 = false ∧
        (fsLookup (downloadAttempts env p i k fs).2.1 p = fsLookup fs p ∨
          ∃ j c, j < k ∧ env.attempt p (i + j) = AttemptOutcome.streamFail c ∧
            fsLookup (downloadAttempts env p i k fs).2.1 p = some c) ∧
        (0 < k → DlMsg.failedFinal ∈ (downloadAttempts env p i k fs).2.2) := by
  intro k
  induction k with
  | zero =>
    intro i fs _
    exact ⟨rfl, Or.inl rfl, fun h => absurd h (by omega)⟩
  | succ k ih =>
    intro i fs hfail
    rw [downloadAttempts]
    cases hx : env.attempt p i with
    | success c =>
      have hs := hfail 0 (by omega)
      rw [Nat.add_zero, hx] at hs
      simp [AttemptOutcome.isSuccess] at hs
    | connectFail =>
      by_cases hk : k = 0
      · subst hk
        simp only [if_pos rfl]
        exact ⟨rfl, Or.inl rfl, fun _ => List.mem_cons_self _ _⟩
      · simp only [if_neg hk]
        have hr := ih (i + 1) fs (fun j hj => by
          have hs := hfail (j + 1) (by omega)
          rwa [show i + (j + 1) = i + 1 + j by omega] at hs)
        refine ⟨hr.1, ?_, fun _ => List.mem_cons_of_mem _ (hr.2.2 (by omega))⟩
        rcases hr.2.1 with h | ⟨j, c2, hj, hatt, hlk⟩
        · exact Or.inl h
        · exact Or.inr ⟨j + 1, c2, by omega,
            by rwa [show i + (j + 1) = i + 1 + j by omega], hlk⟩
    | streamFail c =>
      by_cases hk : k = 0
      · subst hk
        simp only [if_pos rfl]
        refine ⟨rfl, Or.inr ⟨0, c, by omega, by rwa [Nat.add_zero],
          fsSet_lookup_self fs p c⟩, fun _ => List.mem_cons_self _ _⟩
      · simp only [if_neg hk]
        have hr := ih (i + 1) (fsSet fs p c) (fun j hj => by
          have hs := hfail (j + 1) (by omega)
          rwa [show i + (j + 1) = i + 1 + j by omega] at hs)
        refine ⟨hr.1, ?_, fun _ => List.mem_cons_of_mem _ (hr.2.2 (by omega))⟩
        rcases hr.2.1 with h | ⟨j, c2, hj, hatt, hlk⟩
        · rw [fsSet_lookup_self fs p c] at h
          exact Or.inr ⟨0, c, by omega, by rwa [Nat.add_zero], h⟩
        · exact Or.inr ⟨j + 1, c2, by omega,
            by rwa [show i + (j + 1) = i + 1 + j by omega], hlk⟩

theorem download_tasks_single_attempted (env : Env) (fn : String) (fs : FS)
    (m : ExtractedMetadata) (hbase : basename fn = fn)
    (hm : extract_info_from_filename fn = some m)
    (habs : (fsLookup fs [fn]).isSome = false) :
    (download_tasks env [] [fn] fs).attempted = [[fn]] := by
  simp only [download_tasks, hbase, hm, List.nil_append]
  simp [habs, download_tasks]

theorem sync_single_file_attempted (env : Env) (fn : String) (fs : FS)
    (m : ExtractedMetadata) (hbase : basename fn = fn)
    (hm : extract_info_from_filename fn = some m)
    (h1 : fn ≠ "") (h2 : fn ≠ "../") (hnd : strEndsWith fn "/" = false)
    (hfetch : env.fetchOk [] = true)
    (habs : (fsLookup fs [fn]).isSome = false) :
    (sync_directory env 1 (RemoteNode.node [some fn] []) [] [] fs).attempted =
      [[fn]] := by
  have hlinks :
      (fetch_directory_listing
        (if env.fetchOk [] then Except.ok [some fn] else Except.error ())).1 =
        [fn] := by
    rw [hfetch, if_pos rfl]
    simp [fetch_directory_listing, h1, h2]
  rw [sync_directory]
  simp only [hlinks, List.filter_cons, List.filter_nil, hnd, Bool.not_false,
    if_pos, if_neg, cond_false, cond_true, Bool.false_eq_true, if_false,
    folder_tasks]
  rw [download_tasks_single_attempted env fn fs m hbase hm habs]
  simp

/-- C4 counterexample: a download of `_5-20250529110000-xdeb-hd5` fails
on all three attempts, but each attempt wrote a partial body, so a file
exists at the destination afterwards; the next sync run then submits no
download for it — it falsely appears as already downloaded,
contradicting the claim that it is attempted again. -/
theorem claim4_counterexample :
    (download_file envStreamFail ["_5-20250529110000-xdeb-hd5"] []).1 = false ∧
      (sync_directory envStreamFail 1
        (RemoteNode.node [some "_5-20250529110000-xdeb-hd5"] []) [] []
        (download_file envStreamFail ["_5-20250529110000-xdeb-hd5"] []).2.1).attempted =
        [] := by
  decide

/-- C4 (amended): when every attempt of a download fails, the failure
is reported (`False` result and the final failure message), and the
destination is left absent or incomplete (untouched, or holding the
partial body of a failed stream attempt); on the next sync run the
orchestrator attempts the download again if and only if the destination
is absent — a leftover partial file is skipped as already downloaded. -/
theorem claim4_failed_download_amended (env : Env) (fn : String) (fs : FS)
    (hfail : ∀ i, i < 3 → (env.attempt [fn] i).isSuccess = false)
    (hfn : extract_info_from_filename fn ≠ none)
    (hbase : basename fn = fn)
    (hnd : strEndsWith fn "/" = false)
    (hfetch : env.fetchOk [] = true) :
    (download_file env [fn] fs).1 = false ∧
      DlMsg.failedFinal ∈ (download_file env [fn] fs).2.2 ∧
      (fsLookup (download_file env [fn] fs).2.1 [fn] = fsLookup fs [fn] ∨
        ∃ i c, i < 3 ∧ env.attempt [fn] i = AttemptOutcome.streamFail c ∧
          fsLookup (download_file env [fn] fs).2.1 [fn] = some c) ∧
      ((fsLookup (download_file env [fn] fs).2.1 [fn]).isSome = false →
        [fn] ∈ (sync_directory env 1 (RemoteNode.node [some fn] []) [] []
          (download_file env [fn] fs).2.1).attempted) ∧
      ((fsLookup (download_file env [fn] fs).2.1 [fn]).isSome = true →
        [fn] ∉ (sync_directory env 1 (RemoteNode.node [some fn] []) [] []
          (download_file env [fn] fs).2.1).attempted) := by
  have hmain := downloadAttempts_fail_state env [fn] 3 0 fs (fun j hj => by
    have hs := hfail j hj
    rwa [Nat.zero_add])
  obtain ⟨m, hm⟩ : ∃ m, extract_info_from_filename fn = some m := by
    cases hx : extract_info_from_filename fn with
    | none => exact absurd hx hfn
    | some m2 => exact ⟨m2, rfl⟩
  have h1 : fn ≠ "" := by
    intro he
    rw [he, show extract_info_from_filename "" = none from by decide] at hm
    exact absurd hm (by simp)
  have h2 : fn ≠ "../" := by
    intro he
    rw [he, show extract_info_from_filename "../" = none from by decide] at hm
    exact absurd hm (by simp)
  refine ⟨hmain.1, hmain.2.2 (by omega), ?_, ?_, ?_⟩
  · rcases hmain.2.1 with h | ⟨j, c, hj, hatt, hlk⟩
    · exact Or.inl h
    · exact Or.inr ⟨j, c, hj, by rwa [Nat.zero_add] at hatt, hlk⟩
  · intro habs
    rw [sync_single_file_attempted env fn _ m hbase hm h1 h2 hnd hfetch habs]
    simp
  · intro hsome
    exact sync_directory_skip env 1 _ [] [] _ [fn] hsome

/-- Witness for the amended C4: the environment whose attempts always
fail before opening the destination file; the download fails, is
reported, leaves no file, and the next run re-attempts it. -/
theorem claim4_failed_download_amended_witness :
    (download_file envConnFail ["_5-20250529110000-xdeb-hd5"] []).1 = false ∧
      DlMsg.failedFinal ∈
        (download_file envConnFail ["_5-20250529110000-xdeb-hd5"] []).2.2 ∧
      (fsLookup (download_file envConnFail ["_5-20250529110000-xdeb-hd5"] []).2.1
          ["_5-20250529110000-xdeb-hd5"] =
          fsLookup [] ["_5-20250529110000-xdeb-hd5"] ∨
        ∃ i c, i < 3 ∧
          envConnFail.attempt ["_5-20250529110000-xdeb-hd5"] i =
            AttemptOutcome.streamFail c ∧
          fsLookup
            (download_file envConnFail ["_5-20250529110000-xdeb-hd5"] []).2.1
            ["_5-20250529110000-xdeb-hd5"] = some c) ∧
      (((fsLookup (download_file envConnFail ["_5-20250529110000-xdeb-hd5"] []).2.1
          ["_5-20250529110000-xdeb-hd5"]).isSome = false →
        ["_5-20250529110000-xdeb-hd5"] ∈
          (sync_directory envConnFail 1
            (RemoteNode.node [some "_5-20250529110000-xdeb-hd5"] []) [] []
            (download_file envConnFail ["_5-20250529110000-xdeb-hd5"] []).2.1).attempted) ∧
      ((fsLookup (download_file envConnFail ["_5-20250529110000-xdeb-hd5"] []).2.1
          ["_5-20250529110000-xdeb-hd5"]).isSome = true →
        ["_5-20250529110000-xdeb-hd5"] ∉
          (sync_directory envConnFail 1
            (RemoteNode.node [some "_5-20250529110000-xdeb-hd5"] []) [] []
            (download_file envConnFail ["_5-20250529110000-xdeb-hd5"] []).2.1).attempted)) :=
  claim4_failed_download_amended envConnFail "_5-20250529110000-xdeb-hd5" []
    (fun i _ => rfl) (by decide) (by decide) (by decide) rfl

/-! ## Claim C6: idempotence -/

theorem fsLookup_filter_of_key (pred : Path × List Nat → Bool) (fs : FS)
    (p : Path) (h : ∀ c, pred (p, c) = true) :
    fsLookup (fs.filter pred) p = fsLookup fs p := by
  induction fs with
  | nil => rfl
  | cons e rest ih =>
    obtain ⟨q, c⟩ := e
    rw [List.filter_cons]
    by_cases hp : q = p
    · rw [if_pos (by rw [hp]; exact h c)]
      simp [fsLookup, hp, ih]
    · by_cases hpred : pred (q, c) = true
      · rw [if_pos hpred]
        simp [fsLookup, hp, ih]
      · rw [if_neg hpred]
        simp [fsLookup, hp, ih]

theorem clean_local_files_idem (env : Env) (remote : List Path) (fs : FS) :
    (clean_local_files env remote (clean_local_files env remote fs).1).1 =
      (clean_local_files env remote fs).1 := by
  have e1 : (clean_local_files env remote fs).1 =
      fs.filter (fun e => decide (e.1 ∈ remote) || !env.deleteOk e.1) := by
    rw [clean_eq_filter]
  rw [e1, clean_eq_filter]
  simp [List.filter_filter]

theorem start_sync_attempted_eq (env : Env) (fuel : Nat) (root : RemoteNode)
    (fs0 : FS) (prev : List IndexEntry) :
    (start_sync env fuel root fs0 prev).attempted =
      (sync_directory env fuel root [] [] fs0).attempted := rfl

theorem start_sync_fsFinal_eq (env : Env) (fuel : Nat) (root : RemoteNode)
    (fs0 : FS) (prev : List IndexEntry) :
    (start_sync env fuel root fs0 prev).fsFinal =
      (clean_local_files env (sync_directory env fuel root [] [] fs0).found
        (sync_directory env fuel root [] [] fs0).fs).1 := rfl

theorem start_sync_index_eq (env : Env) (fuel : Nat) (root : RemoteNode)
    (fs0 : FS) (prev : List IndexEntry) :
    (start_sync env fuel root fs0 prev).index =
      build_full_index_from_local
        (clean_local_files env (sync_directory env fuel root [] [] fs0).found
          (sync_directory env fuel root [] [] fs0).fs).1 := rfl

/-- C6: the orchestrator skips the download of every file whose
destination path already exists locally, regardless of the existing
content; consequently, when the downloads of a run succeed (a reliable
transport — otherwise C4 requires the failed file to be re-attempted),
running the sync a second time against the unchanged remote tree in the
unchanged environment performs zero downloads and produces an identical
index. -/
theorem claim6_idempotent :
    (∀ env fuel node rpath lrel fs p, (fsLookup fs p).isSome = true →
        p ∉ (sync_directory env fuel node rpath lrel fs).attempted)
  ∧ (∀ env fuel root fs0 prev, Reliable env →
        (start_sync env fuel root
            (start_sync env fuel root fs0 prev).fsFinal
            (start_sync env fuel root fs0 prev).index).attempted = [] ∧
          (start_sync env fuel root
            (start_sync env fuel root fs0 prev).fsFinal
            (start_sync env fuel root fs0 prev).index).index =
            (start_sync env fuel root fs0 prev).index) := by
  refine ⟨fun env fuel node rp lr fs p h =>
    sync_directory_skip env fuel node rp lr fs p h,
    fun env fuel root fs0 prev hr => ?_⟩
  have hkeep : ∀ p, p ∈ (sync_directory env fuel root [] [] fs0).found →
      fsLookup (clean_local_files env
        (sync_directory env fuel root [] [] fs0).found
        (sync_directory env fuel root [] [] fs0).fs).1 p =
      fsLookup (sync_directory env fuel root [] [] fs0).fs p := by
    intro p hp
    rw [clean_eq_filter]
    exact fsLookup_filter_of_key _ _ p (fun c => by simp [hp])
  have hpre : ∀ p, p ∈ observedHd5 env.fetchOk fuel root [] [] →
      (fsLookup (clean_local_files env
        (sync_directory env fuel root [] [] fs0).found
        (sync_directory env fuel root [] [] fs0).fs).1 p).isSome = true := by
    intro p hp
    have hp1 : p ∈ (sync_directory env fuel root [] [] fs0).found := by
      rw [sync_directory_found env fuel root [] [] fs0]
      exact hp
    rw [hkeep p hp1]
    exact sync_directory_reliable env hr fuel root [] [] fs0 p hp1
  have h2 := sync_directory_nochange env fuel root [] []
    (clean_local_files env (sync_directory env fuel root [] [] fs0).found
      (sync_directory env fuel root [] [] fs0).fs).1 hpre
  have hfound2 : (sync_directory env fuel root [] []
      (clean_local_files env (sync_directory env fuel root [] [] fs0).found
        (sync_directory env fuel root [] [] fs0).fs).1).found =
      (sync_directory env fuel root [] [] fs0).found := by
    rw [sync_directory_found, sync_directory_found]
  constructor
  · rw [start_sync_attempted_eq, start_sync_fsFinal_eq]
    exact h2.1
  · rw [start_sync_index_eq, start_sync_index_eq, start_sync_fsFinal_eq]
    rw [hfound2, h2.2, clean_local_files_idem]

/-- Witness for C6: a locally present file is skipped, and the second
run of a concrete reliable sync performs zero downloads and reproduces
the index. -/
theorem claim6_idempotent_witness :
    (["sub", "_6-20250529110000-xfoo-hd5"] ∉
        (sync_directory envOk 2 treeTwo [] []
          [(["sub", "_6-20250529110000-xfoo-hd5"], [2])]).attempted)
  ∧ ((start_sync envOk 2 treeTwo
        (start_sync envOk 2 treeTwo [] []).fsFinal
        (start_sync envOk 2 treeTwo [] []).index).attempted = [] ∧
      (start_sync envOk 2 treeTwo
        (start_sync envOk 2 treeTwo [] []).fsFinal
        (start_sync envOk 2 treeTwo [] []).index).index =
        (start_sync envOk 2 treeTwo [] []).index) :=
  ⟨claim6_idempotent.1 envOk 2 treeTwo [] []
      [(["sub", "_6-20250529110000-xfoo-hd5"], [2])]
      ["sub", "_6-20250529110000-xfoo-hd5"] (by decide),
    claim6_idempotent.2 envOk 2 treeTwo [] [] (fun p i => rfl)⟩

end RadView
